import Mathlib

/-!
Shallow embedding of the Statesman (Supermodel) reactive state container:
keypath parsing and normalisation, the nested value tree with deep get and
set, the observer registry with upstream and downstream propagation, the
notification queue used by batched writes, and the computed-value engine.
Keypaths are lists of characters; JavaScript values are modelled by the
inductive type Val; machine behaviour that can throw (strict-mode property
assignment on a primitive, member access on null or undefined, the thrown
string errors of the library) is modelled by explicit error results.
-/

namespace Statesman

/-- Decimal digit character for a value below ten. -/
def digitChar (n : Nat) : Char := Char.ofNat (48 + n)

/-- Fuel-driven accumulator loop building a decimal representation; the
fuel n + 1 always suffices for the number n. -/
def natToCharsAux : Nat → Nat → List Char → List Char
  | 0, _, acc => acc
  | fuel + 1, n, acc =>
    if n < 10 then digitChar n :: acc
    else natToCharsAux fuel (n / 10) (digitChar (n % 10) :: acc)

/-- Decimal representation of a natural number, as the characters of the
string JavaScript produces when a number is coerced to a string. -/
def natToChars (n : Nat) : List Char :=
  natToCharsAux (n + 1) n []

/-- Numeric value of a list of decimal digit characters, as JavaScript
unary plus computes it on a digit string. -/
def digitsToNat (s : List Char) : Nat :=
  s.foldl (fun acc c => acc * 10 + (c.toNat - 48)) 0

/-- One key produced by splitKeypath: a property-name string or an array
index produced by bracket notation. -/
inductive Seg where
  | str : List Char → Seg
  | num : Nat → Seg
deriving DecidableEq, Repr

/-- String form of a key, as used when the keys are joined with dots. -/
def Seg.chars : Seg → List Char
  | .str s => s
  | .num n => natToChars n

/-- Splitting a string on the period character, matching the behaviour of
the JavaScript split method with a one-character separator: the result is
always non-empty and an empty input yields one empty piece. -/
def splitOnDot : List Char → List (List Char)
  | [] => [[]]
  | c :: rest =>
    if c = '.' then [] :: splitOnDot rest
    else
      match splitOnDot rest with
      | s :: ss => (c :: s) :: ss
      | [] => [[c]]

/-- Index of the first opening bracket in a key, if any. -/
def bracketIdx : List Char → Option Nat
  | [] => none
  | c :: rest =>
    if c = '[' then some 0 else (bracketIdx rest).map (· + 1)

/-- First match of the pattern bracket, one or more decimal digits, close
bracket, scanning left to right; returns the digit characters of the
match.  This models the exec call on the cached arrayNotationPattern. -/
def findBracketMatch : List Char → Option (List Char)
  | [] => none
  | c :: rest =>
    if c = '[' then
      let ds := rest.takeWhile Char.isDigit
      if ds.isEmpty then findBracketMatch rest
      else
        match (rest.drop ds.length).head? with
        | some ']' => some ds
        | _ => findBracketMatch rest
    else findBracketMatch rest

/-- The while loop of the bracket-notation parser: repeatedly take the
first bracket match, append its numeric value, and drop the length of the
whole match from the front of the remaining pointer string.  The fuel is
one more than the length of the pointer string, which always suffices
because every iteration drops at least three characters. -/
def bracketLoop : Nat → List Seg → List Char → List Seg
  | 0, result, _ => result
  | fuel + 1, result, pointers =>
    match findBracketMatch pointers with
    | none => result
    | some ds =>
      bracketLoop fuel (result ++ [Seg.num (digitsToNat ds)])
        (pointers.drop (ds.length + 2))

/-- Split a key that may use bracket notation into the identifier followed
by one numeric key per bracket pair; a key without an opening bracket is
returned unchanged as a single string key. -/
def parseArrayKeys (key : List Char) : List Seg :=
  match bracketIdx key with
  | none => [Seg.str key]
  | some i => bracketLoop (key.length + 1) [Seg.str (key.take i)] (key.drop i)

/-- Turn a keypath string into its list of keys: split on periods, then
expand bracket notation in each piece. -/
def splitKeypath (keypath : List Char) : List Seg :=
  (splitOnDot keypath).flatMap parseArrayKeys

/-- Join string pieces with periods, as the JavaScript join method does. -/
def joinDots : List (List Char) → List Char
  | [] => []
  | [s] => s
  | s :: rest => s ++ '.' :: joinDots rest

/-- Canonical form of a keypath: split into keys and rejoin with dots. -/
def standardise (keypath : List Char) : List Char :=
  joinDots ((splitKeypath keypath).map Seg.chars)

/-- Is a key integer-like for the branch-creation test: a numeric key, or
a non-empty string of decimal digits matching the integerPattern regex. -/
def segIsInteger : Seg → Bool
  | .num _ => true
  | .str s => !s.isEmpty && s.all Char.isDigit

/-- Index of the last period in a keypath, if any. -/
def lastDotIdx : List Char → Option Nat
  | [] => none
  | c :: rest =>
    match lastDotIdx rest with
    | some i => some (i + 1)
    | none => if c = '.' then some 0 else none

/-- Fuel-driven loop computing the successive ancestor keypaths obtained
by repeatedly stripping the final dot-separated piece. -/
def ancestorsAux : Nat → List Char → List (List Char)
  | 0, _ => []
  | fuel + 1, s =>
    match lastDotIdx s with
    | none => []
    | some i => s.take i :: ancestorsAux fuel (s.take i)

/-- The proper ancestor keypaths of a keypath, outermost last, as visited
by the upstream notification loop. -/
def ancestorsList (s : List Char) : List (List Char) :=
  ancestorsAux s.length s

/-- The names of the members every plain object inherits from
Object.prototype (including the proto accessor and the de facto getter
and setter definition members present in the engines this library
targets).  Reading one of these keys from a plain object with no own
property of that name yields a truthy inherited value, not undefined. -/
def objectProtoMembers : List (List Char) :=
  ["__proto__".data, "constructor".data, "toString".data, "toLocaleString".data,
   "valueOf".data, "hasOwnProperty".data, "isPrototypeOf".data,
   "propertyIsEnumerable".data, "__defineGetter__".data, "__defineSetter__".data,
   "__lookupGetter__".data, "__lookupSetter__".data]

/-- Is the string the name of an inherited member of a plain object? -/
def isProtoMember (s : List Char) : Bool :=
  decide (s ∈ objectProtoMembers)

/-- The name of the proto accessor property. -/
def protoName : List Char := "__proto__".data

/-- The value of the length property of the inherited member of the
given name: the arity of the inherited function, and nothing (read as
zero by the loop bounds, since a comparison with undefined is false) for
the prototype object produced by the proto accessor. -/
def protoMemberLen (s : List Char) : Nat :=
  if s ∈ ["__defineGetter__".data, "__defineSetter__".data] then 2
  else if s ∈ ["constructor".data, "hasOwnProperty".data, "isPrototypeOf".data,
      "propertyIsEnumerable".data, "__lookupGetter__".data, "__lookupSetter__".data] then 1
  else 0

/-- A JavaScript value: undefined, null, a primitive, a plain object
modelled as an ordered field list, an array modelled as its indexed
elements together with its non-index string properties, or a reference
to the shared built-in object produced by reading an inherited member
(the prototype object for the proto accessor, the inherited function for
the other member names).  The own properties of the built-in objects
themselves are not tracked: reading through them yields undefined and
assigning onto them is absorbed. -/
inductive Val where
  | undef : Val
  | null : Val
  | bool : Bool → Val
  | num : Int → Val
  | str : List Char → Val
  | vobj : List (List Char × Val) → Val
  | varr : List Val → List (List Char × Val) → Val
  | protoVal : List Char → Val

/-- JavaScript truthiness. -/
def Val.truthy : Val → Bool
  | .undef => false
  | .null => false
  | .bool b => b
  | .num n => n != 0
  | .str s => !s.isEmpty
  | .vobj _ => true
  | .varr _ _ => true
  | .protoVal _ => true

/-- Does the typeof operator answer object for this value?  It does for
null, for objects and arrays, and for the prototype object, but not for
the inherited functions (their typeof is function). -/
def Val.typeofObject : Val → Bool
  | .null => true
  | .vobj _ => true
  | .varr _ _ => true
  | .protoVal s => s = protoName
  | _ => false

/-- Is the value undefined? -/
def Val.isUndef : Val → Bool
  | .undef => true
  | _ => false

/-- Is the value null? -/
def Val.isNull : Val → Bool
  | .null => true
  | _ => false

/-- Is the value a non-null structured value, that is a mapping or a
sequence of the data tree? -/
def Val.isStructured : Val → Bool
  | .vobj _ => true
  | .varr _ _ => true
  | _ => false

/-- Is the value a primitive (undefined, null, boolean, number or
string)? -/
def Val.isPrimitive : Val → Bool
  | .vobj _ => false
  | .varr _ _ => false
  | .protoVal _ => false
  | _ => true

/-- Strict equality of two primitive (or reference-compared built-in)
values, as the triple-equals operator compares them once both are known
not to answer object to typeof; two reads of the same inherited member
produce the same reference. -/
def primStrictEq : Val → Val → Bool
  | .undef, .undef => true
  | .bool a, .bool b => a == b
  | .num a, .num b => a == b
  | .str a, .str b => a == b
  | .protoVal a, .protoVal b => a == b
  | _, _ => false

/-- The change-detection equality helper: null equals only null, any
comparison in which either operand answers object to typeof (other than
the null-null case) is treated as changed, and the remaining primitives
compare by strict equality. -/
def isEqual (a b : Val) : Bool :=
  match a, b with
  | .null, .null => true
  | a, b =>
    if a.typeofObject || b.typeofObject then false
    else primStrictEq a b

/-- Look a field up in an ordered field list; undefined when absent. -/
def lookupField : List (List Char × Val) → List Char → Val
  | [], _ => .undef
  | (k, v) :: rest, key => if k = key then v else lookupField rest key

/-- Find an own field in an ordered field list, distinguishing an absent
key from an own property holding undefined. -/
def findField : List (List Char × Val) → List Char → Option Val
  | [], _ => none
  | (k, v) :: rest, key => if k = key then some v else findField rest key

/-- Is a key safe from the inherited members of a plain object?  Numeric
keys coerce to digit strings and are always safe; a string key is safe
when it is not an inherited member name. -/
def segKeySafe : Seg → Bool
  | .num _ => true
  | .str s => !isProtoMember s

/-- Is the key anything but the proto accessor name?  Ordinary member
names may be shadowed by own properties; only the proto accessor cannot
be written through. -/
def segNotProto : Seg → Bool
  | .num _ => true
  | .str s => !(s = protoName : Bool)

/-- Write a field in an ordered field list, keeping the position of an
existing key and appending a new key at the end. -/
def setField : List (List Char × Val) → List Char → Val → List (List Char × Val)
  | [], key, v => [(key, v)]
  | (k, w) :: rest, key, v =>
    if k = key then (k, v) :: rest else (k, w) :: setField rest key v

/-- Write an array element at an index, padding any gap with undefined as
an out-of-range JavaScript element assignment does. -/
def setElem : List Val → Nat → Val → List Val
  | [], 0, v => [v]
  | [], n + 1, v => .undef :: setElem [] n v
  | _ :: rest, 0, v => v :: rest
  | x :: rest, n + 1, v => x :: setElem rest n v

/-- Parse a string as a canonical array index: a non-empty digit string
with no superfluous leading zero.  Non-canonical digit strings address
ordinary string properties even on arrays. -/
def canonIndex (s : List Char) : Option Nat :=
  match s with
  | [] => none
  | ['0'] => some 0
  | c :: rest =>
    if c.isDigit && c != '0' && rest.all Char.isDigit then
      some (digitsToNat (c :: rest))
    else none

/-- Look a string key up in a field list with the inherited members of a
plain object behind it: the proto accessor always answers with the
prototype object, an own property (even one holding undefined) shadows
the other inherited members, and a missing key falls back to the
inherited member when the name is one, else to undefined. -/
def lookupOwnOrProto (fs : List (List Char × Val)) (s : List Char) : Val :=
  if s = protoName then Val.protoVal s
  else
    match findField fs s with
    | some v => v
    | none => if isProtoMember s then Val.protoVal s else Val.undef

/-- Read one property of a value by key, as bracket member access does:
objects and arrays yield their stored content, an inherited member, or
undefined; property reads on primitives and through the untracked
built-in objects yield undefined. -/
def getProp : Val → Seg → Val
  | .vobj fs, .str s => lookupOwnOrProto fs s
  | .vobj fs, .num n => lookupField fs (natToChars n)
  | .varr es _, .num n => es.getD n .undef
  | .varr es ps, .str s =>
    match canonIndex s with
    | some n => es.getD n .undef
    | none => lookupOwnOrProto ps s
  | _, _ => Val.undef

/-- Write one property of a value by key, as strict-mode bracket member
assignment does.  Assignment through the proto accessor is a silent
no-op for the values arising here (reassigning the prototype itself with
an object value is not modelled); assignment onto a built-in object is
absorbed without tracking; assignment on a primitive, null or undefined
raises a TypeError, modelled as none. -/
def setProp : Val → Seg → Val → Option Val
  | .vobj fs, .str s, v =>
    if s = protoName then some (.vobj fs)
    else some (.vobj (setField fs s v))
  | .vobj fs, .num n, v => some (.vobj (setField fs (natToChars n) v))
  | .varr es ps, .num n, v => some (.varr (setElem es n v) ps)
  | .varr es ps, .str s, v =>
    (match canonIndex s with
      | some n => some (.varr (setElem es n v) ps)
      | none =>
        if s = protoName then some (.varr es ps)
        else some (.varr es (setField ps s v)))
  | .protoVal s, _, _ => some (.protoVal s)
  | _, _, _ => none

/-- The get walk over the keys of a keypath, with the try/catch of the
source: member access on null (or undefined) would throw and is caught,
yielding undefined, and an undefined intermediate result returns
undefined immediately. -/
def getLoop : Val → List Seg → Val
  | result, [] => result
  | result, key :: keys =>
    if result.isUndef || result.isNull then .undef
    else
      let x := getProp result key
      if x.isUndef then .undef else getLoop x keys

/-- The same walk without the try/catch: member access on null or
undefined propagates the TypeError instead of being caught. -/
def getLoopExc : Val → List Seg → Except Unit Val
  | result, [] => .ok result
  | result, key :: keys =>
    if result.isUndef || result.isNull then .error ()
    else
      let x := getProp result key
      if x.isUndef then .ok .undef else getLoopExc x keys

/-- The set walk: descend along all but the last key, creating a missing
or falsy branch as an array when the next key is integer-like and as a
plain object otherwise, then assign the value at the final key.  A
strict-mode TypeError from assigning a property on a primitive is
modelled as none. -/
def setWalk : Val → List Seg → Val → Option Val
  | obj, [], _ => some obj
  | obj, [key], v => setProp obj key v
  | obj, key :: next :: rest, v =>
    let cur := getProp obj key
    if cur.truthy then
      match setWalk cur (next :: rest) v with
      | none => none
      | some cur' => setProp obj key cur'
    else
      let branch := if segIsInteger next then Val.varr [] [] else Val.vobj []
      match setProp obj key branch with
      | none => none
      | some obj' =>
        match setWalk branch (next :: rest) v with
        | none => none
        | some branch' => setProp obj' key branch'

/-- An observer callback: an externally supplied function, identified by a
number so that firings can be logged, or the setter closure of the
computed value registered at the given id. -/
inductive Callback where
  | ext : Nat → Callback
  | setter : List Char → Callback
deriving DecidableEq, Repr

/-- One observer record: the exact keypath the record is registered
under, the keypath the subscriber originally asked for, the callback, and
a reference to the owning observer group. -/
structure ObserverRec where
  observedKeypath : List Char
  originalKeypath : List Char
  callback : Callback
  groupId : Nat
deriving DecidableEq, Repr

/-- One registered computed value.  The cache field is the live (toggled)
flag and cacheConfig is the configured value the setter restores; the fn
field is the derivation function applied to the trigger values. -/
structure ComputedRec where
  fn : List Val → Val
  triggers : List (List Char)
  cache : Bool
  cacheConfig : Bool
  readonly : Bool
  override : Bool
  groupIds : List Nat

/-- One queued notification: callback, new value, previous value. -/
structure QItem where
  c : Callback
  v : Val
  p : Val

/-- The whole state of one Supermodel instance: the data tree, the
observer registry, the last-known value of each observer group, the
computed-value registry, the notification queue and the three ambient
flags, plus a counter handing out group identities. -/
structure Model where
  data : Val
  observers : List (List Char × List ObserverRec)
  groupPrevs : List (Nat × Val)
  computed : List (List Char × ComputedRec)
  queue : List QItem
  queueing : Bool
  computing : Bool
  referToCache : Bool
  nextId : Nat
  protoOverride : List (List Char × Bool)

/-- The constructor: this._data is the given data, or an empty object
when the argument is falsy; all registries start empty.  The
protoOverride field records the override property the library assigns
onto the shared inherited member object of a given name (set does this
when a keypath collides with an inherited member of the computed
registry); the sharing of these built-ins across instances is not
modelled, only their state as seen by this instance. -/
def newModel (d : Val) : Model :=
  { data := if d.truthy then d else .vobj []
    observers := []
    groupPrevs := []
    computed := []
    queue := []
    queueing := false
    computing := false
    referToCache := false
    nextId := 0
    protoOverride := [] }

/-- Association-list lookup. -/
def alistGet {β : Type} : List (List Char × β) → List Char → Option β
  | [], _ => none
  | (k, v) :: rest, key => if k = key then some v else alistGet rest key

/-- Association-list write, replacing in place or appending. -/
def alistPut {β : Type} : List (List Char × β) → List Char → β → List (List Char × β)
  | [], key, v => [(key, v)]
  | (k, w) :: rest, key, v =>
    if k = key then (k, v) :: rest else (k, w) :: alistPut rest key v

/-- Association-list deletion of a key. -/
def alistErase {β : Type} : List (List Char × β) → List Char → List (List Char × β)
  | [], _ => []
  | (k, w) :: rest, key =>
    if k = key then rest else (k, w) :: alistErase rest key

/-- Look up the computed value registered at an id (the raw id string is
the registry key; no normalisation is applied). -/
def lookupComputed (m : Model) (id : List Char) : Option ComputedRec :=
  alistGet m.computed id

/-- Update the computed record at an id in place. -/
def updateComputed (m : Model) (id : List Char) (f : ComputedRec → ComputedRec) : Model :=
  match alistGet m.computed id with
  | none => m
  | some c => { m with computed := alistPut m.computed id (f c) }

/-- Register (or replace) a computed record at an id. -/
def putComputed (m : Model) (id : List Char) (c : ComputedRec) : Model :=
  { m with computed := alistPut m.computed id c }

/-- The observer bucket registered at a canonical keypath, if any. -/
def bucketGet (m : Model) (kp : List Char) : Option (List ObserverRec) :=
  alistGet m.observers kp

/-- What reading a key off the plain computed registry object yields: an
own registered record, a truthy inherited member of the prototype, or
undefined. -/
inductive RegRead where
  | own : ComputedRec → RegRead
  | inherited : RegRead
  | absent : RegRead

/-- The read this._computed[keypath], including the inherited members of
the plain registry object (an own registration shadows them). -/
def computedRead (m : Model) (p : List Char) : RegRead :=
  match alistGet m.computed p with
  | some c => .own c
  | none => if isProtoMember p then .inherited else .absent

/-- What reading a key off the plain observer registry object yields: an
own bucket, a truthy inherited member whose length property bounds the
notification loops, or undefined. -/
inductive ObsRead where
  | own : List ObserverRec → ObsRead
  | inherited : Nat → ObsRead
  | absent : ObsRead

/-- The read this._observers[keypath], including the inherited members
of the plain registry object. -/
def bucketRead (m : Model) (kp : List Char) : ObsRead :=
  match alistGet m.observers kp with
  | some recs => .own recs
  | none => if isProtoMember kp then .inherited (protoMemberLen kp) else .absent

/-- The override property currently sitting on the shared inherited
member object of the given name (undefined, read as false, before any
write). -/
def protoOverrideVal (m : Model) (s : List Char) : Bool :=
  (alistGet m.protoOverride s).getD false

/-- Record a write of the override property onto the shared inherited
member object of the given name. -/
def setProtoOverride (m : Model) (s : List Char) (b : Bool) : Model :=
  { m with protoOverride := alistPut m.protoOverride s b }

/-- The last-known value of an observer group (undefined before the
group has recorded one). -/
def groupPrev (m : Model) (gid : Nat) : Val :=
  go m.groupPrevs
where
  go : List (Nat × Val) → Val
    | [] => .undef
    | (g, v) :: rest => if g = gid then v else go rest

/-- Record the last-known value of an observer group. -/
def setGroupPrev (m : Model) (gid : Nat) (v : Val) : Model :=
  { m with groupPrevs := go m.groupPrevs }
where
  go : List (Nat × Val) → List (Nat × Val)
    | [] => [(gid, v)]
    | (g, w) :: rest => if g = gid then (g, v) :: rest else (g, w) :: go rest

/-- Append an observer record to the bucket of a keypath, creating the
bucket when absent. -/
def bucketAppend (obs : List (List Char × List ObserverRec)) (kp : List Char)
    (rec : ObserverRec) : List (List Char × List ObserverRec) :=
  match alistGet obs kp with
  | some recs => alistPut obs kp (recs ++ [rec])
  | none => obs ++ [(kp, [rec])]

/-- Register one observer record per listed keypath, all sharing one
group and one callback; this is the registration loop of observe, which
walks from the full keypath down through its ancestors. -/
def registerRecords (m : Model) (paths : List (List Char)) (original : List Char)
    (cb : Callback) (gid : Nat) : Model :=
  match paths with
  | [] => m
  | kp :: rest =>
    registerRecords
      { m with observers := bucketAppend m.observers kp ⟨kp, original, cb, gid⟩ }
      rest original cb gid

/-- Remove every record belonging to one of the given groups from the
registry, deleting buckets that become empty; this is the net effect of
unobserving the observer groups owned by a computed value. -/
def removeGroupRecs (obs : List (List Char × List ObserverRec)) (gids : List Nat) :
    List (List Char × List ObserverRec) :=
  (obs.map (fun b => (b.1, b.2.filter (fun r => !gids.contains r.groupId)))).filter
    (fun b => !b.2.isEmpty)

/-- removeComputedValue: unsubscribe every observer group owned by the
computed value at an id and delete its registration. -/
def removeComputed (m : Model) (id : List Char) : Model :=
  match lookupComputed m id with
  | none => m
  | some c =>
    { m with
      observers := removeGroupRecs m.observers c.groupIds
      computed := alistErase m.computed id }

/-- Append the identity of a freshly created trigger observer group to a
computed record. -/
def pushGroupId (m : Model) (id : List Char) (g : Nat) : Model :=
  updateComputed m id (fun r => { r with groupIds := r.groupIds ++ [g] })

/-- Remove the first queued item carrying the given callback, if any. -/
def removeQueued : List QItem → Callback → List QItem
  | [], _ => []
  | q :: rest, cb => if q.c = cb then rest else q :: removeQueued rest cb

/-- _addToQueue: de-duplicate by callback (dropping the earlier queued
item) and append the new item at the end. -/
def addToQueue (queue : List QItem) (cb : Callback) (v p : Val) : List QItem :=
  removeQueued queue cb ++ [⟨cb, v, p⟩]

/-- The trigger option of compute as supplied by the caller: absent, a
single keypath string, or an array of keypath strings. -/
inductive TrigArg where
  | undef : TrigArg
  | one : List Char → TrigArg
  | many : List (List Char) → TrigArg

/-- JavaScript truthiness of a trigger option value; note that an empty
array is truthy while an empty string is not. -/
def TrigArg.truthy : TrigArg → Bool
  | .undef => false
  | .one s => !s.isEmpty
  | .many _ => true

/-- The options record accepted by compute.  The derivation function is
modelled as a pure function of its trigger values and the trigger option
as an immutable value: a JavaScript fn that mutates its surroundings
(for instance emptying the caller-shared triggers array mid-call) is
outside this model, which is why facts about the uncachable guard are
stated against the resolved trigger list at registration time. -/
structure ComputeOptions where
  fn : List Val → Val
  triggers : TrigArg
  trigger : TrigArg
  cache : Option Bool
  readonly : Option Bool

/-- The cache defaulting of compute: with a non-empty trigger list the
cache option defaults to true unless explicitly false; with no triggers
the flag is set to false regardless of the requested option. -/
def computeCacheFlag (opts : ComputeOptions) (triggers : List (List Char)) : Bool :=
  if triggers.isEmpty then false
  else
    match opts.cache with
    | some false => false
    | _ => true

/-- Resolve the trigger list: triggers wins over trigger when truthy, a
falsy result becomes the empty list, and a single string is wrapped. -/
def resolveTriggers (o : ComputeOptions) : List (List Char) :=
  let t := if o.triggers.truthy then o.triggers else o.trigger
  if !t.truthy then []
  else
    match t with
    | .one s => [s]
    | .many ts => ts
    | .undef => []

/-- The errors the engine can raise: the readonly-violation and
self-trigger and uncachable configuration errors thrown as strings by the
source, and the TypeError of a strict-mode property assignment on a
primitive (or of invoking a setter that does not exist). -/
inductive JsErr where
  | readonly : JsErr
  | selfTrigger : JsErr
  | uncachable : JsErr
  | typeError : JsErr
deriving DecidableEq, Repr

/-- The externally observable log of callback firings: identity of the
external callback, new value, previous value. -/
abbrev Events := List (Nat × Val × Val)

/-- The value a public entry point hands back: the instance itself (for
chaining), nothing, a plain value, a list of values (internal trigger
argument collection), or an observer group handle. -/
inductive RetV where
  | rSelf : RetV
  | rUnit : RetV
  | rVal : Val → RetV
  | rVals : List Val → RetV
  | rGroup : Option Nat → RetV

/-- The value inside a plain-value return, defaulting to undefined. -/
def RetV.asVal : RetV → Val
  | .rVal v => v
  | _ => Val.undef

/-- The list inside a value-list return, defaulting to the empty list. -/
def RetV.asVals : RetV → List Val
  | .rVals vs => vs
  | _ => []

/-- Outcome of running an operation: normal completion with the new model
state, the fired events and a return value; an exception carrying the
state mutated so far; or exhaustion of the step fuel. -/
inductive Res where
  | ok : Model → Events → RetV → Res
  | exn : Model → Events → JsErr → Res
  | out : Res

/-- Prepend earlier events to an outcome. -/
def Res.addEv (ev : Events) : Res → Res
  | .ok m ev2 r => .ok m (ev ++ ev2) r
  | .exn m ev2 e => .exn m (ev ++ ev2) e
  | .out => .out

/-- Sequence two operations: exceptions and fuel exhaustion
short-circuit, and events accumulate in order. -/
def Res.seq : Res → (Model → RetV → Res) → Res
  | .ok m ev r, k => (k m r).addEv ev
  | .exn m ev e, _ => .exn m ev e
  | .out, _ => .out

/-- The model carried by an outcome (with a default for fuel
exhaustion). -/
def Res.modelOf : Res → Model
  | .ok m _ _ => m
  | .exn m _ _ => m
  | .out => newModel (.vobj [])

/-- The events carried by an outcome. -/
def Res.eventsOf : Res → Events
  | .ok _ ev _ => ev
  | .exn _ ev _ => ev
  | .out => []

/-- The error carried by an outcome, if it is an exception. -/
def Res.errOf : Res → Option JsErr
  | .exn _ _ e => some e
  | _ => none

/-- The return value carried by a normal completion. -/
def Res.retOf : Res → Option RetV
  | .ok _ _ r => some r
  | _ => none

/-- The plain value returned by a normal completion, if any. -/
def Res.retValOf : Res → Option Val
  | .ok _ _ (.rVal v) => some v
  | _ => none

/-- The public read of a keypath when no computed setter intervenes: an
empty (falsy) keypath reads as undefined, any other keypath is split into
keys and walked with the guarded loop. -/
def pureGet (m : Model) (p : List Char) : Val :=
  if p.isEmpty then .undef else getLoop m.data (splitKeypath p)

/-- One pending operation of the engine, used to drive the fuel-indexed
interpreter through the mutual recursion of get, set, notification,
queue dispatch, observe and compute. -/
inductive Call where
  | cGet : Model → List Char → Call
  | cGetArgs : Model → List (List Char) → Call
  | cSetter : Model → List Char → Call
  | cSet : Model → List Char → Val → Bool → Bool → Call
  | cSetPairs : Model → List (List Char × Val) → Bool → Call
  | cSetMulti : Model → List (List Char × Val) → Bool → Call
  | cNotify : Model → List Char → Val → Bool → Call
  | cExactLoop : Model → List Char → Val → Bool → Nat → Call
  | cUpLoop : Model → List (List Char) → Call
  | cUpRecs : Model → List Char → Nat → List (List Char) → Call
  | cRunCb : Model → Callback → Val → Val → Call
  | cDispatch : Model → Call
  | cObserve : Model → List Char → Callback → Bool → Call
  | cObserveTriggers : Model → List Char → List (List Char) → Call
  | cCompute : Model → List Char → ComputeOptions → Call

/-- The engine.  Each constructor of Call is translated from the
corresponding source function; every step consumes one unit of fuel, and
running out of fuel yields the out marker (the source can genuinely
diverge on cyclic trigger graphs). -/
def interp : Nat → Call → Res
  | 0, _ => .out
  | fuel + 1, c =>
    match c with
    | .cGet m p =>
      if p.isEmpty then .ok m [] (.rVal .undef)
      else if m.referToCache then .ok m [] (.rVal (pureGet m p))
      else
        match computedRead m p with
        | .own c =>
          if !c.cache && !c.override then
            (interp fuel (.cSetter m p)).seq fun m1 _ =>
              .ok m1 [] (.rVal (pureGet m1 p))
          else .ok m [] (.rVal (pureGet m p))
        | .inherited =>
          if !protoOverrideVal m p then .exn m [] .typeError
          else .ok m [] (.rVal (pureGet m p))
        | .absent => .ok m [] (.rVal (pureGet m p))
    | .cGetArgs m triggers =>
      match triggers with
      | [] => .ok m [] (.rVals [])
      | t :: rest =>
        (interp fuel (.cGetArgs m rest)).seq fun m1 r1 =>
          (interp fuel (.cGet m1 t)).seq fun m2 r2 =>
            .ok m2 [] (.rVals (r2.asVal :: r1.asVals))
    | .cSetter m id =>
      match lookupComputed m id with
      | none => .exn m [] .typeError
      | some c =>
        let m1 := updateComputed m id (fun r => { r with cache := true })
        let m2 := { m1 with computing := true }
        (interp fuel (.cGetArgs m2 c.triggers)).seq fun m3 r =>
          let value := c.fn r.asVals
          (interp fuel (.cSet m3 id value false false)).seq fun m4 _ =>
            .ok (updateComputed m4 id (fun r => { r with cache := c.cacheConfig }))
              [] (.rVal value)
    | .cSet m p v silent force =>
      let step :=
        match computedRead m p with
        | .own c =>
          if !m.computing then
            if c.readonly then none
            else some (updateComputed m p (fun r => { r with override := true }))
          else
            some { updateComputed m p (fun r => { r with override := false }) with
                   computing := false }
        | .inherited =>
          if !m.computing then some (setProtoOverride m p true)
          else some { setProtoOverride m p false with computing := false }
        | .absent => some m
      match step with
      | none => .exn m [] .readonly
      | some m1 =>
        (interp fuel (.cGet { m1 with referToCache := true } p)).seq fun m2 r =>
          let previous := r.asVal
          let m3 := { m2 with referToCache := false }
          let keys := splitKeypath p
          let kp := joinDots (keys.map Seg.chars)
          match setWalk m3.data keys v with
          | none => .exn m3 [] .typeError
          | some d =>
            let m4 := { m3 with data := d }
            if !silent && (force || !isEqual previous v) then
              (interp fuel (.cNotify m4 kp v force)).seq fun m5 _ =>
                .ok m5 [] .rSelf
            else .ok m4 [] .rSelf
    | .cSetPairs m pairs silent =>
      match pairs with
      | [] => .ok m [] .rUnit
      | (k, v) :: rest =>
        (interp fuel (.cSet m k v silent false)).seq fun m1 _ =>
          interp fuel (.cSetPairs m1 rest silent)
    | .cSetMulti m pairs silent =>
      (interp fuel (.cSetPairs { m with queueing := true } pairs silent)).seq
        fun m1 _ =>
          (interp fuel (.cDispatch m1)).seq fun m2 _ =>
            .ok { m2 with queueing := false } [] .rSelf
    | .cNotify m p v force =>
      (interp fuel (.cExactLoop m p v force 0)).seq fun m1 _ =>
        interp fuel (.cUpLoop m1 (ancestorsList p))
    | .cExactLoop m p v force i =>
      match bucketRead m p with
      | .absent => .ok m [] .rUnit
      | .inherited len =>
        if i < len then .exn m [] .typeError else .ok m [] .rUnit
      | .own recs =>
        match recs.get? i with
        | none => .ok m [] .rUnit
        | some rec =>
          let prev := groupPrev m rec.groupId
          let cont := fun (m1 : Model) (actual : Val) =>
            let m2 := setGroupPrev m1 rec.groupId actual
            if !force && isEqual actual prev then
              interp fuel (.cExactLoop m2 p v force (i + 1))
            else if m2.queueing then
              interp fuel (.cExactLoop
                { m2 with queue := addToQueue m2.queue rec.callback actual prev }
                p v force (i + 1))
            else
              (interp fuel (.cRunCb m2 rec.callback actual prev)).seq fun m3 _ =>
                interp fuel (.cExactLoop m3 p v force (i + 1))
          if p = rec.originalKeypath then cont m v
          else
            (interp fuel (.cGet m rec.originalKeypath)).seq fun m1 r =>
              cont m1 r.asVal
    | .cUpLoop m ancestors =>
      match ancestors with
      | [] => .ok m [] .rUnit
      | kp :: rest =>
        match bucketRead m kp with
        | .absent => interp fuel (.cUpLoop m rest)
        | .inherited len =>
          (match len with
            | 0 => interp fuel (.cUpLoop m rest)
            | _ + 1 => .exn m [] .typeError)
        | .own recs => interp fuel (.cUpRecs m kp recs.length rest)
    | .cUpRecs m kp i rest =>
      match i with
      | 0 => interp fuel (.cUpLoop m rest)
      | j + 1 =>
        match ((bucketGet m kp).getD []).get? j with
        | none => interp fuel (.cUpRecs m kp j rest)
        | some rec =>
          if rec.observedKeypath = rec.originalKeypath then
            (interp fuel (.cGet m kp)).seq fun m1 r =>
              let value := r.asVal
              if m1.queueing then
                interp fuel (.cUpRecs
                  { m1 with queue := addToQueue m1.queue rec.callback value value }
                  kp j rest)
              else
                (interp fuel (.cRunCb m1 rec.callback value value)).seq fun m2 _ =>
                  interp fuel (.cUpRecs m2 kp j rest)
          else interp fuel (.cUpRecs m kp j rest)
    | .cRunCb m cb v prev =>
      match cb with
      | .ext n => .ok m [(n, v, prev)] .rUnit
      | .setter id =>
        (interp fuel (.cSetter m id)).seq fun m1 _ => .ok m1 [] .rUnit
    | .cDispatch m =>
      match m.queue with
      | [] => .ok m [] .rUnit
      | item :: rest =>
        (interp fuel (.cRunCb { m with queue := rest } item.c item.v item.p)).seq
          fun m1 _ => interp fuel (.cDispatch m1)
    | .cObserve m p cb init =>
      if p.isEmpty then .ok m [] (.rVal .undef)
      else
        let original := standardise p
        let gid := m.nextId
        let m1 := { m with nextId := gid + 1 }
        let m2 := registerRecords m1 (original :: ancestorsList original) original cb gid
        let finish := fun (mf : Model) =>
          (interp fuel (.cGet mf original)).seq fun m3 r =>
            .ok (setGroupPrev m3 gid r.asVal) [] (.rGroup (some gid))
        if init then
          (interp fuel (.cGet m2 original)).seq fun m3 r =>
            (interp fuel (.cRunCb m3 cb r.asVal .undef)).seq fun m4 _ =>
              finish m4
        else finish m2
    | .cObserveTriggers m id triggers =>
      match triggers with
      | [] => .ok m [] .rUnit
      | t :: rest =>
        (interp fuel (.cObserveTriggers m id rest)).seq fun m1 _ =>
          (interp fuel (.cObserve m1 t (Callback.setter id) false)).seq fun m2 r =>
            .ok (match r with
                  | .rGroup (some g) => pushGroupId m2 id g
                  | _ => m2) [] .rUnit
    | .cCompute m id opts =>
      let cleared :=
        match computedRead m id with
        | .own _ => some (removeComputed m id)
        | .inherited => none
        | .absent => some m
      match cleared with
      | none => .exn m [] .typeError
      | some m1 =>
      let triggers := resolveTriggers opts
      if triggers.contains id then .exn m1 [] .selfTrigger
      else
        let cache := computeCacheFlag opts triggers
        let readonly :=
          match opts.readonly with
          | some false => false
          | _ => true
        let m2 := putComputed m1 id
          { fn := opts.fn
            triggers := triggers
            cache := cache
            cacheConfig := cache
            readonly := readonly
            override := false
            groupIds := [] }
        (interp fuel (.cSetter m2 id)).seq fun m3 r =>
          if triggers.isEmpty && cache then .exn m3 [] .uncachable
          else
            (interp fuel (.cObserveTriggers m3 id triggers)).seq fun m4 _ =>
              .ok m4 [] (.rVal r.asVal)

/-! Concrete fixtures used by the scenario theorems. -/

/-- A model constructed with no data (new Supermodel()). -/
def emptyModel : Model := newModel Val.undef

/-- A model whose data is the object with foo set to the string a. -/
def mFooA : Model := newModel (.vobj [("foo".data, .str "a".data)])

/-- A readonly computed record used to exercise the readonly guard. -/
def roRec : ComputedRec :=
  { fn := fun _ => .num 0
    triggers := []
    cache := false
    cacheConfig := false
    readonly := true
    override := false
    groupIds := [] }

/-- A model carrying a readonly computed value registered at sum. -/
def mReadonly : Model :=
  putComputed (newModel (.vobj [("sum".data, .num 3)])) "sum".data roRec

/-- The data tree foo = (a 1, b 2, bar baz). -/
def dFooFull : Val :=
  .vobj [("foo".data,
    .vobj [("a".data, .num 1), ("b".data, .num 2), ("bar".data, .str "baz".data)])]

/-- Empty model observing foo.bar with external callback 0. -/
def mObsFooBar : Model :=
  (interp 60 (.cObserve emptyModel "foo.bar".data (.ext 0) false)).modelOf

/-- Model with dFooFull observing foo.bar with external callback 0. -/
def mObsFooBarFull : Model :=
  (interp 60 (.cObserve (newModel dFooFull) "foo.bar".data (.ext 0) false)).modelOf

/-- Model with dFooFull observing foo with external callback 0. -/
def mObsFooFull : Model :=
  (interp 60 (.cObserve (newModel dFooFull) "foo".data (.ext 0) false)).modelOf

/-- Empty model observing foo with external callback 0. -/
def mObsFoo : Model :=
  (interp 60 (.cObserve emptyModel "foo".data (.ext 0) false)).modelOf

/-- The previous model after a first set of foo to the string bar. -/
def mObsFooSet : Model :=
  (interp 60 (.cSet mObsFoo "foo".data (.str "bar".data) false false)).modelOf

/-- The data tree foo = a, bar = b for the batch scenario. -/
def dTwo : Val := .vobj [("foo".data, .str "a".data), ("bar".data, .str "b".data)]

/-- Batch scenario model: observer 0 on foo registered first, then
observer 1 on bar. -/
def mBatchA : Model :=
  (interp 60 (.cObserve
    ((interp 60 (.cObserve (newModel dTwo) "foo".data (.ext 0) false)).modelOf)
    "bar".data (.ext 1) false)).modelOf

/-- Batch scenario model with the registration order reversed: observer 1
on bar first, then observer 0 on foo. -/
def mBatchB : Model :=
  (interp 60 (.cObserve
    ((interp 60 (.cObserve (newModel dTwo) "bar".data (.ext 1) false)).modelOf)
    "foo".data (.ext 0) false)).modelOf

/-- The batched write of the de-duplication scenario. -/
def batchPairs : List (List Char × Val) :=
  [("foo".data, .str "baz".data), ("bar".data, .str "foo".data)]

/-- Options requesting a cached computed value with no triggers. -/
def uncachedTrueOpts : ComputeOptions := ⟨fun _ => .num 42, .undef, .undef, some true, none⟩

/-- Options declaring an uncached computed with a constant derivation. -/
def constOpts : ComputeOptions := ⟨fun _ => .num 1, .undef, .undef, none, none⟩

/-- Model after computing a.b from constOpts on the empty model. -/
def mC9a : Model := (interp 100 (.cCompute emptyModel "a.b".data constOpts)).modelOf

/-- The previous model after overwriting a with the string hello. -/
def mC9b : Model :=
  (interp 100 (.cSet mC9a "a".data (.str "hello".data) false false)).modelOf

/-- A cached computed record with two trigger observer groups. -/
def sumRecW : ComputedRec :=
  { fn := fun _ => .num 0
    triggers := ["x".data, "y".data]
    cache := true
    cacheConfig := true
    readonly := true
    override := false
    groupIds := [0, 1] }

/-- The observer registry holding the two trigger groups of sumRecW. -/
def obsW : List (List Char × List ObserverRec) :=
  [("x".data, [⟨"x".data, "x".data, .setter "sum".data, 0⟩]),
   ("y".data, [⟨"y".data, "y".data, .setter "sum".data, 1⟩])]

/-- A model carrying the computed value sum with its trigger groups. -/
def mC10 : Model :=
  { data := .vobj []
    observers := obsW
    groupPrevs := []
    computed := [("sum".data, sumRecW)]
    queue := []
    queueing := false
    computing := false
    referToCache := false
    nextId := 2
    protoOverride := [] }

/-- Replacement options naming the computed value as its own trigger. -/
def selfOpts : ComputeOptions := ⟨fun _ => .num 0, .many ["sum".data], .undef, none, none⟩


/-! Keypath parser lemmas and the normalisation claim. -/

theorem digitChar_isDigit {n : Nat} (h : n < 10) : (digitChar n).isDigit = true := by
  interval_cases n <;> decide

theorem natToCharsAux_digits (fuel : Nat) : ∀ (n : Nat) (acc : List Char),
    (∀ c ∈ acc, c.isDigit = true) → ∀ c ∈ natToCharsAux fuel n acc, c.isDigit = true := by
  induction fuel with
  | zero =>
    intro n acc hacc c hc
    rw [natToCharsAux] at hc
    exact hacc c hc
  | succ f ih =>
    intro n acc hacc c hc
    rw [natToCharsAux] at hc
    by_cases h : n < 10
    · rw [if_pos h] at hc
      rcases List.mem_cons.mp hc with rfl | hc2
      · exact digitChar_isDigit h
      · exact hacc c hc2
    · rw [if_neg h] at hc
      refine ih _ _ ?_ c hc
      intro c2 hc2
      rcases List.mem_cons.mp hc2 with rfl | hc3
      · exact digitChar_isDigit (Nat.mod_lt _ (by norm_num))
      · exact hacc c2 hc3

theorem natToChars_digits (n : Nat) : ∀ c ∈ natToChars n, c.isDigit = true :=
  natToCharsAux_digits (n + 1) n [] (by intro c hc; cases hc)

theorem splitOnDot_ne_nil (p : List Char) : splitOnDot p ≠ [] := by
  induction p with
  | nil => simp [splitOnDot]
  | cons c rest ih =>
    rw [splitOnDot]
    by_cases h : c = '.'
    · simp [h]
    · rw [if_neg h]
      cases hs : splitOnDot rest <;> simp

theorem splitOnDot_no_dot (p : List Char) : ∀ s ∈ splitOnDot p, '.' ∉ s := by
  induction p with
  | nil =>
    intro s hs
    rw [splitOnDot] at hs
    rcases List.mem_cons.mp hs with rfl | hs2
    · simp
    · cases hs2
  | cons c rest ih =>
    intro s hs
    rw [splitOnDot] at hs
    by_cases h : c = '.'
    · rw [if_pos h] at hs
      rcases List.mem_cons.mp hs with rfl | hs2
      · simp
      · exact ih s hs2
    · rw [if_neg h] at hs
      cases hrec : splitOnDot rest with
      | nil => exact absurd hrec (splitOnDot_ne_nil rest)
      | cons s0 ss =>
        rw [hrec] at hs
        rcases List.mem_cons.mp hs with rfl | hs2
        · intro hmem
          rcases List.mem_cons.mp hmem with h1 | h2
          · exact h h1.symm
          · exact ih s0 (by rw [hrec]; exact List.mem_cons_self s0 ss) h2
        · exact ih s (by rw [hrec]; exact List.mem_cons_of_mem s0 hs2)

theorem splitOnDot_dotfree (s : List Char) (h : '.' ∉ s) : splitOnDot s = [s] := by
  induction s with
  | nil => rfl
  | cons c rest ih =>
    have hc : c ≠ '.' := fun he => h (he ▸ List.mem_cons_self c rest)
    have hr : '.' ∉ rest := fun hm => h (List.mem_cons_of_mem c hm)
    rw [splitOnDot, if_neg hc, ih hr]

theorem splitOnDot_append (s t : List Char) (h : '.' ∉ s) :
    splitOnDot (s ++ '.' :: t) = s :: splitOnDot t := by
  induction s with
  | nil => simp [splitOnDot]
  | cons c rest ih =>
    have hc : c ≠ '.' := fun he => h (he ▸ List.mem_cons_self c rest)
    have hr : '.' ∉ rest := fun hm => h (List.mem_cons_of_mem c hm)
    rw [List.cons_append, splitOnDot, if_neg hc, ih hr]

theorem splitOnDot_joinDots (ss : List (List Char)) (hne : ss ≠ [])
    (h : ∀ s ∈ ss, '.' ∉ s) : splitOnDot (joinDots ss) = ss := by
  induction ss with
  | nil => exact absurd rfl hne
  | cons s rest ih =>
    cases rest with
    | nil => exact splitOnDot_dotfree s (h s (List.mem_cons_self s []))
    | cons s2 rest2 =>
      have hrec : splitOnDot (joinDots (s2 :: rest2)) = s2 :: rest2 :=
        ih (fun hx => List.noConfusion hx) (fun x hx => h x (List.mem_cons_of_mem s hx))
      have hj : joinDots (s :: s2 :: rest2) = s ++ '.' :: joinDots (s2 :: rest2) := rfl
      rw [hj, splitOnDot_append s _ (h s (List.mem_cons_self s _)), hrec]

theorem bracketIdx_none (key : List Char) (h : '[' ∉ key) : bracketIdx key = none := by
  induction key with
  | nil => rfl
  | cons c rest ih =>
    have hc : c ≠ '[' := fun he => h (he ▸ List.mem_cons_self c rest)
    rw [bracketIdx, if_neg hc, ih (fun hm => h (List.mem_cons_of_mem c hm))]
    rfl

theorem bracketIdx_none_inv (key : List Char) (h : bracketIdx key = none) : '[' ∉ key := by
  induction key with
  | nil => simp
  | cons c rest ih =>
    rw [bracketIdx] at h
    by_cases hc : c = '['
    · rw [if_pos hc] at h; cases h
    · rw [if_neg hc] at h
      intro hm
      rcases List.mem_cons.mp hm with h1 | h2
      · exact hc h1.symm
      · cases hbi : bracketIdx rest with
        | none => exact ih hbi h2
        | some j => rw [hbi] at h; cases h

theorem bracketIdx_take (key : List Char) : ∀ (i : Nat), bracketIdx key = some i →
    '[' ∉ key.take i := by
  induction key with
  | nil => intro i h; cases h
  | cons c rest ih =>
    intro i h
    rw [bracketIdx] at h
    by_cases hc : c = '['
    · rw [if_pos hc] at h
      cases h
      simp
    · rw [if_neg hc] at h
      cases hbi : bracketIdx rest with
      | none => rw [hbi] at h; cases h
      | some j =>
        rw [hbi] at h
        cases h
        rw [List.take_succ_cons]
        intro hm
        rcases List.mem_cons.mp hm with h1 | h2
        · exact hc h1.symm
        · exact ih j hbi h2

theorem bracketLoop_mem (fuel : Nat) : ∀ (res : List Seg) (ptr : List Char) (seg : Seg),
    seg ∈ bracketLoop fuel res ptr → seg ∈ res ∨ ∃ n, seg = Seg.num n := by
  induction fuel with
  | zero => intro res ptr seg h; rw [bracketLoop] at h; exact Or.inl h
  | succ f ih =>
    intro res ptr seg h
    rw [bracketLoop] at h
    cases hm : findBracketMatch ptr with
    | none => rw [hm] at h; exact Or.inl h
    | some ds =>
      rw [hm] at h
      rcases ih _ _ _ h with h2 | h2
      · rcases List.mem_append.mp h2 with h3 | h3
        · exact Or.inl h3
        · rcases List.mem_cons.mp h3 with rfl | h4
          · exact Or.inr ⟨_, rfl⟩
          · cases h4
      · exact Or.inr h2

theorem bracketLoop_ne_nil (fuel : Nat) : ∀ (res : List Seg) (ptr : List Char),
    res ≠ [] → bracketLoop fuel res ptr ≠ [] := by
  induction fuel with
  | zero => intro res ptr h; rw [bracketLoop]; exact h
  | succ f ih =>
    intro res ptr h
    rw [bracketLoop]
    cases hm : findBracketMatch ptr with
    | none => exact h
    | some ds => exact ih _ _ (by simp)

theorem parseArrayKeys_ne_nil (key : List Char) : parseArrayKeys key ≠ [] := by
  rw [parseArrayKeys]
  cases hb : bracketIdx key with
  | none => simp
  | some i => exact bracketLoop_ne_nil _ _ _ (by simp)

theorem isDigit_not_dot {c : Char} (h : c.isDigit = true) : c ≠ '.' := by
  rintro rfl; cases h

theorem isDigit_not_bracket {c : Char} (h : c.isDigit = true) : c ≠ '[' := by
  rintro rfl; cases h

theorem parseArrayKeys_chars (key : List Char) (hd : '.' ∉ key) :
    ∀ seg ∈ parseArrayKeys key, '.' ∉ seg.chars ∧ '[' ∉ seg.chars := by
  intro seg hseg
  rw [parseArrayKeys] at hseg
  cases hb : bracketIdx key with
  | none =>
    rw [hb] at hseg
    rcases List.mem_cons.mp hseg with rfl | h2
    · exact ⟨hd, bracketIdx_none_inv key hb⟩
    · cases h2
  | some i =>
    rw [hb] at hseg
    rcases bracketLoop_mem _ _ _ _ hseg with hs | ⟨n, rfl⟩
    · rcases List.mem_cons.mp hs with rfl | h2
      · refine ⟨fun hm => hd (List.take_subset i key hm), bracketIdx_take key i hb⟩
      · cases h2
    · constructor
      · intro hm
        exact isDigit_not_dot (natToChars_digits n _ hm) rfl
      · intro hm
        exact isDigit_not_bracket (natToChars_digits n _ hm) rfl

theorem splitKeypath_ne_nil (p : List Char) : splitKeypath p ≠ [] := by
  rw [splitKeypath]
  cases hs : splitOnDot p with
  | nil => exact absurd hs (splitOnDot_ne_nil p)
  | cons s ss =>
    rw [List.flatMap_cons]
    intro h
    rcases List.append_eq_nil.mp h with ⟨h1, _⟩
    exact parseArrayKeys_ne_nil s h1

theorem splitKeypath_chars (p : List Char) :
    ∀ seg ∈ splitKeypath p, '.' ∉ seg.chars ∧ '[' ∉ seg.chars := by
  intro seg hseg
  rw [splitKeypath] at hseg
  rcases List.mem_flatMap.mp hseg with ⟨piece, hp, hs⟩
  exact parseArrayKeys_chars piece (splitOnDot_no_dot p piece hp) seg hs

theorem flatMap_parseArrayKeys (ss : List (List Char)) (h : ∀ s ∈ ss, '[' ∉ s) :
    ss.flatMap parseArrayKeys = ss.map Seg.str := by
  induction ss with
  | nil => rfl
  | cons s rest ih =>
    rw [List.flatMap_cons, List.map_cons]
    rw [parseArrayKeys, bracketIdx_none s (h s (List.mem_cons_self s rest))]
    rw [ih (fun x hx => h x (List.mem_cons_of_mem s hx))]
    rfl

theorem splitKeypath_standardise (p : List Char) :
    splitKeypath (standardise p) = (splitKeypath p).map (fun s => Seg.str s.chars) := by
  rw [standardise, splitKeypath]
  rw [splitOnDot_joinDots ((splitKeypath p).map Seg.chars)
    (by simp [splitKeypath_ne_nil p])
    (by
      intro s hs
      rcases List.mem_map.mp hs with ⟨seg, hseg, rfl⟩
      exact (splitKeypath_chars p seg hseg).1)]
  rw [flatMap_parseArrayKeys _ (by
      intro s hs
      rcases List.mem_map.mp hs with ⟨seg, hseg, rfl⟩
      exact (splitKeypath_chars p seg hseg).2)]
  rw [List.map_map]
  rfl

/-- C7: keypath normalisation is idempotent for every keypath string, and
bracket and dot notation normalise to the same canonical string:
standardise (standardise p) = standardise p for all p, and both a.b[0] and
a.b.0 normalise to a.b.0. -/
theorem claim_C7 :
    (∀ p : List Char, standardise (standardise p) = standardise p)
    ∧ standardise "a.b[0]".data = standardise "a.b.0".data
    ∧ standardise "a.b.0".data = "a.b.0".data := by
  refine ⟨?_, rfl, rfl⟩
  intro p
  conv_lhs => rw [standardise]
  rw [splitKeypath_standardise, List.map_map]
  have : Seg.chars ∘ (fun s => Seg.str s.chars) = Seg.chars := by
    funext s; rfl
  rw [this]
  rfl



theorem lookupField_setField (fs : List (List Char × Val)) (k : List Char) (v : Val) :
    lookupField (setField fs k v) k = v := by
  induction fs with
  | nil => simp [setField, lookupField]
  | cons kv rest ih =>
    obtain ⟨k2, w⟩ := kv
    rw [setField]
    by_cases h : k2 = k
    · rw [if_pos h, lookupField, if_pos h]
    · rw [if_neg h, lookupField, if_neg h, ih]

theorem findField_setField (fs : List (List Char × Val)) (k : List Char) (v : Val) :
    findField (setField fs k v) k = some v := by
  induction fs with
  | nil => simp [setField, findField]
  | cons kv rest ih =>
    obtain ⟨k2, w⟩ := kv
    rw [setField]
    by_cases h : k2 = k
    · rw [if_pos h, findField, if_pos h]
    · rw [if_neg h, findField, if_neg h, ih]

theorem ne_protoName_of_safe {s : List Char} (h : isProtoMember s = false) :
    s ≠ protoName := by
  intro he
  subst he
  have : isProtoMember protoName = true := by decide
  rw [this] at h
  cases h

theorem safe_notProto {k : Seg} (h : segKeySafe k = true) : segNotProto k = true := by
  cases k with
  | num n => rfl
  | str s =>
    rw [segKeySafe] at h
    rw [segNotProto]
    have hm : isProtoMember s = false := by
      cases hv : isProtoMember s
      · rfl
      · rw [hv] at h; cases h
    simp [ne_protoName_of_safe hm]

theorem getD_setElem (n : Nat) : ∀ (es : List Val) (v : Val),
    (setElem es n v).getD n .undef = v := by
  induction n with
  | zero => intro es v; cases es <;> rfl
  | succ m ih =>
    intro es v
    cases es with
    | nil =>
      rw [setElem]
      simpa using ih [] v
    | cons x rest =>
      rw [setElem]
      simpa using ih rest v

theorem isUndef_eq {v : Val} (h : v.isUndef = true) : v = .undef := by
  cases v <;> first | rfl | cases h

theorem structured_not_undef {v : Val} (h : v.isStructured = true) : v.isUndef = false := by
  cases v <;> first | rfl | cases h

theorem structured_not_null {v : Val} (h : v.isStructured = true) : v.isNull = false := by
  cases v <;> first | rfl | cases h

theorem getProp_setProp (root : Val) (k : Seg) (v root' : Val)
    (hst : root.isStructured = true) (hnp : segNotProto k = true)
    (h : setProp root k v = some root') : getProp root' k = v := by
  cases root with
  | vobj fs =>
    cases k with
    | str s =>
      have hs : s ≠ protoName := by
        rw [segNotProto] at hnp
        intro he
        rw [he] at hnp
        simp at hnp
      rw [setProp, if_neg hs] at h
      injection h with h
      subst h
      rw [getProp, lookupOwnOrProto, if_neg hs, findField_setField]
    | num n =>
      rw [setProp] at h
      injection h with h
      subst h
      rw [getProp, lookupField_setField]
  | varr es ps =>
    cases k with
    | num n =>
      rw [setProp] at h
      injection h with h
      subst h
      rw [getProp, getD_setElem]
    | str s =>
      rw [setProp] at h
      cases hc : canonIndex s with
      | some n =>
        rw [hc] at h
        injection h with h
        subst h
        rw [getProp, hc]
        exact getD_setElem n es v
      | none =>
        have hs : s ≠ protoName := by
          rw [segNotProto] at hnp
          intro he
          rw [he] at hnp
          simp at hnp
        rw [hc] at h
        simp only [if_neg hs] at h
        injection h with h
        subst h
        rw [getProp, hc]
        rw [lookupOwnOrProto, if_neg hs, findField_setField]
  | undef => cases hst
  | null => cases hst
  | bool b => cases hst
  | num n => cases hst
  | str s => cases hst
  | protoVal s => cases hst

theorem setProp_structured (root : Val) (k : Seg) (v : Val) (h : root.isStructured = true) :
    ∃ r, setProp root k v = some r ∧ r.isStructured = true := by
  cases root with
  | vobj fs =>
    cases k with
    | str s =>
      by_cases hs : s = protoName
      · exact ⟨.vobj fs, by rw [setProp, if_pos hs], rfl⟩
      · exact ⟨.vobj (setField fs s v), by rw [setProp, if_neg hs], rfl⟩
    | num n => exact ⟨_, rfl, rfl⟩
  | varr es ps =>
    cases k with
    | num n => exact ⟨_, rfl, rfl⟩
    | str s =>
      cases hc : canonIndex s with
      | some n => exact ⟨.varr (setElem es n v) ps, by rw [setProp, hc], rfl⟩
      | none =>
        by_cases hs : s = protoName
        · exact ⟨.varr es ps, by rw [setProp, hc]; simp [hs], rfl⟩
        · exact ⟨.varr es (setField ps s v), by rw [setProp, hc]; simp [hs], rfl⟩
  | undef => cases h
  | null => cases h
  | bool b => cases h
  | num n => cases h
  | str s => cases h
  | protoVal s => cases h

theorem getProp_fresh (root : Val) (k : Seg) (hsafe : segKeySafe k = true)
    (h : root = Val.vobj [] ∨ root = Val.varr [] []) : getProp root k = .undef := by
  have hlk : ∀ s : List Char, isProtoMember s = false → lookupOwnOrProto [] s = Val.undef := by
    intro s hm
    rw [lookupOwnOrProto, if_neg (ne_protoName_of_safe hm), findField, hm]
    rfl
  rcases h with rfl | rfl
  · cases k with
    | num n => rfl
    | str s =>
      rw [segKeySafe] at hsafe
      rw [getProp]
      exact hlk s (by cases hv : isProtoMember s; rfl; rw [hv] at hsafe; cases hsafe)
  · cases k with
    | num n => cases n <;> rfl
    | str s =>
      rw [segKeySafe] at hsafe
      rw [getProp]
      cases hc : canonIndex s
      · simp only []
        exact hlk s (by cases hv : isProtoMember s; rfl; rw [hv] at hsafe; cases hsafe)
      · simp

theorem getLoop_structured (r : Val) (h : r.isStructured = true) (k : Seg) (rest : List Seg) :
    getLoop r (k :: rest) =
      (if (getProp r k).isUndef then .undef else getLoop (getProp r k) rest) := by
  rw [getLoop, structured_not_undef h, structured_not_null h]
  rfl

theorem setWalk_fresh (segs : List Seg) : ∀ (v root : Val),
    (root = Val.vobj [] ∨ root = Val.varr [] []) → segs ≠ [] →
    segs.all segKeySafe = true →
    ∃ d, setWalk root segs v = some d ∧ d.isStructured = true ∧ getLoop d segs = v := by
  induction segs with
  | nil => intro v root hroot hne hsafe; exact absurd rfl hne
  | cons k rest ih =>
    intro v root hroot hne hsafe
    rw [List.all_cons, Bool.and_eq_true] at hsafe
    have hs : root.isStructured = true := by rcases hroot with rfl | rfl <;> rfl
    cases rest with
    | nil =>
      obtain ⟨r, hr, hrs⟩ := setProp_structured root k v hs
      refine ⟨r, by rw [setWalk]; exact hr, hrs, ?_⟩
      have hg : getProp r k = v :=
        getProp_setProp root k v r hs (safe_notProto hsafe.1) hr
      rw [getLoop_structured r hrs k [], hg]
      cases hv : v.isUndef
      · rw [if_neg (by simp [hv])]; rfl
      · rw [if_pos rfl, isUndef_eq hv]
    | cons next rest2 =>
      have hcur : getProp root k = .undef := getProp_fresh root k hsafe.1 hroot
      have hbr : (if segIsInteger next then Val.varr [] [] else Val.vobj []) = Val.vobj []
          ∨ (if segIsInteger next then Val.varr [] [] else Val.vobj []) = Val.varr [] [] := by
        cases segIsInteger next <;> simp
      obtain ⟨branch2, hb, hbs, hbg⟩ :=
        ih v (if segIsInteger next then Val.varr [] [] else Val.vobj []) hbr
          (List.cons_ne_nil next rest2) hsafe.2
      obtain ⟨obj2, ho, hos⟩ :=
        setProp_structured root k (if segIsInteger next then Val.varr [] [] else Val.vobj []) hs
      obtain ⟨d, hd, hds⟩ := setProp_structured obj2 k branch2 hos
      refine ⟨d, ?_, hds, ?_⟩
      · rw [setWalk, hcur]
        simp only [Val.truthy, Bool.false_eq_true, if_false, ho, hb, hd]
      · have hgd : getProp d k = branch2 :=
          getProp_setProp obj2 k branch2 d hos (safe_notProto hsafe.1) hd
        rw [getLoop_structured d hds k (next :: rest2), hgd,
          structured_not_undef hbs]
        simpa using hbg

theorem getLoop_recover (segs : List Seg) : ∀ r : Val,
    getLoop r segs =
      (match getLoopExc r segs with | .error _ => Val.undef | .ok v => v) := by
  induction segs with
  | nil => intro r; rfl
  | cons k rest ih =>
    intro r
    rw [getLoop, getLoopExc]
    cases hnu : (r.isUndef || r.isNull)
    · simp only [Bool.false_eq_true, if_false]
      cases hx : (getProp r k).isUndef
      · simp only [Bool.false_eq_true, if_false]
        exact ih (getProp r k)
      · simp
    · simp



theorem addEv_nil (r : Res) : Res.addEv [] r = r := by
  cases r <;> simp [Res.addEv]

theorem exactLoop_empty (g : Nat) (m : Model) (p : List Char) (v : Val) (force : Bool)
    (i : Nat) (h : m.observers = []) (hm : isProtoMember p = false) :
    interp (g + 1) (.cExactLoop m p v force i) = .ok m [] .rUnit := by
  conv_lhs => rw [interp]
  simp [bucketRead, h, alistGet, hm]

theorem upLoop_empty (anc : List (List Char)) : ∀ (g : Nat) (m : Model),
    m.observers = [] → (∀ a ∈ anc, isProtoMember a = false) →
    interp (g + anc.length + 1) (.cUpLoop m anc) = .ok m [] .rUnit := by
  induction anc with
  | nil =>
    intro g m h hanc
    conv_lhs => rw [interp]
  | cons kp rest ih =>
    intro g m h hanc
    rw [show g + (kp :: rest).length + 1 = (g + rest.length + 1) + 1 from by
      simp [List.length_cons]; omega]
    conv_lhs => rw [interp]
    simp only [bucketRead, h, alistGet, hanc kp (List.mem_cons_self kp rest),
      Bool.false_eq_true, if_false]
    exact ih g m h (fun a ha => hanc a (List.mem_cons_of_mem kp ha))

theorem notify_empty (p : List Char) (v : Val) (force : Bool) (g : Nat) (m : Model)
    (h : m.observers = []) (hm : isProtoMember p = false)
    (hanc : ∀ a ∈ ancestorsList p, isProtoMember a = false) :
    interp (g + (ancestorsList p).length + 2) (.cNotify m p v force) = .ok m [] .rUnit := by
  rw [show g + (ancestorsList p).length + 2 = (g + (ancestorsList p).length + 1) + 1 from rfl]
  conv_lhs => rw [interp]
  rw [show g + (ancestorsList p).length + 1 = (g + (ancestorsList p).length) + 1 from rfl]
  rw [exactLoop_empty _ _ _ _ _ _ h hm]
  simp only [Res.seq, addEv_nil]
  rw [show g + (ancestorsList p).length + 1 = g + (ancestorsList p).length + 1 from rfl]
  exact upLoop_empty (ancestorsList p) g m h hanc

theorem get_cached (g : Nat) (m : Model) (p : List Char) (h : m.referToCache = true) :
    interp (g + 1) (.cGet m p) = .ok m [] (.rVal (pureGet m p)) := by
  conv_lhs => rw [interp]
  by_cases hp : p.isEmpty
  · simp [hp, pureGet]
  · simp [hp, h]

theorem getLoop_undef (segs : List Seg) : getLoop .undef segs = .undef := by
  cases segs
  · rfl
  · rw [getLoop]; rfl



theorem pureGet_rtc (m : Model) (p : List Char) :
    pureGet { m with referToCache := true } p = pureGet m p := rfl

/-- C1 (amended): set reads the previous value at the keypath before the
mutation (through the cache-referring get of the unmodified tree) and
uses it for change detection: when the computed-registry read of the
keypath yields nothing, a non-silent, non-forced set whose value is
isEqual to that previous value mutates the tree but notifies nobody; the
call returns the instance itself, not the previous value. -/
theorem claim_C1 (fuel : Nat) (m : Model) (p : List Char) (v d : Val)
    (hc : computedRead m p = .absent) (hr : m.referToCache = false)
    (heq : isEqual (pureGet m p) v = true)
    (hw : setWalk m.data (splitKeypath p) v = some d) :
    interp (fuel + 2) (.cSet m p v false false) = .ok { m with data := d } [] .rSelf := by
  have hm3 : { { m with referToCache := true } with referToCache := false } = m := by
    cases m
    simp only at hr
    subst hr
    rfl
  rw [show fuel + 2 = (fuel + 1) + 1 from rfl]
  conv_lhs => rw [interp]
  simp only [hc]
  rw [get_cached fuel _ p rfl]
  simp only [Res.seq, addEv_nil, RetV.asVal, pureGet_rtc, hm3, hw, heq]
  simp
  exact hr

/-- C3: a manual set (computing flag clear) on a keypath carrying a
readonly computed value throws the readonly-violation error before any
mutation: the model is returned unchanged, so any later get reads the
same tree, and no observer events are emitted. -/
theorem claim_C3 (fuel : Nat) (m : Model) (p : List Char) (v : Val)
    (silent force : Bool) (c : ComputedRec)
    (hc : lookupComputed m p = some c) (hro : c.readonly = true)
    (hcomp : m.computing = false) :
    interp (fuel + 1) (.cSet m p v silent force) = .exn m [] .readonly := by
  have hc2 : computedRead m p = .own c := by
    rw [lookupComputed] at hc
    rw [computedRead, hc]
  conv_lhs => rw [interp]
  simp only [hc2, hcomp, hro]
  simp

/-- C3 witness: on a concrete model with a readonly computed at sum, a
manual set of sum raises the readonly error and leaves the model intact. -/
theorem claim_C3_witness :
    interp 7 (.cSet mReadonly "sum".data (.num 99) false false)
      = .exn mReadonly [] .readonly :=
  claim_C3 6 mReadonly "sum".data (.num 99) false false roRec rfl rfl rfl

/-- C1 (counterexample): the claim says set returns the previous value at
the keypath; on the model with foo bound to the string a, setting foo to
the string b returns the instance marker rSelf, which is not the wrapped
previous value rVal a (nor any wrapped value). -/
theorem claim_C1_counterexample :
    (interp 60 (.cSet mFooA "foo".data (.str "b".data) false false)).retOf
        = some RetV.rSelf
    ∧ some RetV.rSelf ≠ some (RetV.rVal (.str "a".data)) := by
  constructor
  · rfl
  · intro h
    injection h with h
    cases h

/-- C1 witness: the amended statement applied at a concrete input: setting
foo to the string a it already holds mutates nothing visible and fires no
events, returning self. -/
theorem claim_C1_witness :
    interp 2 (.cSet mFooA "foo".data (.str "a".data) false false)
      = .ok { mFooA with data := .vobj [("foo".data, .str "a".data)] } [] .rSelf :=
  claim_C1 0 mFooA "foo".data (.str "a".data) (.vobj [("foo".data, .str "a".data)])
    rfl rfl rfl rfl



theorem isEmpty_false_of_ne_nil {p : List Char} (hp : p ≠ []) : p.isEmpty = false := by
  cases p
  · exact absurd rfl hp
  · rfl

theorem member_not_safe (p : List Char) (hmem : isProtoMember p = true) :
    (splitKeypath p).all segKeySafe = false := by
  have hall : ∀ x ∈ objectProtoMembers, '.' ∉ x ∧ '[' ∉ x := by decide
  have hprops := hall p (by simpa [isProtoMember] using hmem)
  have hsplit : splitKeypath p = [Seg.str p] := by
    rw [splitKeypath, splitOnDot_dotfree p hprops.1]
    simp [parseArrayKeys, bracketIdx_none p hprops.2]
  rw [hsplit]
  simp [segKeySafe, hmem]

theorem member_standardise_not_safe (p : List Char)
    (hmem : isProtoMember (standardise p) = true) :
    (splitKeypath p).all segKeySafe = false := by
  have hall : ∀ x ∈ objectProtoMembers, '.' ∉ x ∧ '[' ∉ x := by decide
  have hmem2 : standardise p ∈ objectProtoMembers := by simpa [isProtoMember] using hmem
  have hprops := hall (standardise p) hmem2
  have hsplit : splitKeypath (standardise p) = [Seg.str (standardise p)] := by
    rw [splitKeypath, splitOnDot_dotfree (standardise p) hprops.1]
    simp [parseArrayKeys, bracketIdx_none (standardise p) hprops.2]
  rw [splitKeypath_standardise] at hsplit
  cases hsk : splitKeypath p with
  | nil => exact absurd hsk (splitKeypath_ne_nil p)
  | cons seg rest =>
    rw [hsk, List.map_cons] at hsplit
    injection hsplit with h1 h2
    injection h1 with h1
    have hrest : rest = [] := List.map_eq_nil_iff.mp h2
    subst hrest
    cases seg with
    | str t =>
      simp only [Seg.chars] at h1
      subst h1
      simp [segKeySafe, hmem]
    | num n =>
      simp only [Seg.chars] at h1
      have hdig := natToChars_digits n
      rw [h1] at hdig
      have hall2 : ∀ x ∈ objectProtoMembers, ¬(∀ c ∈ x, c.isDigit = true) := by decide
      exact (hall2 _ hmem2 hdig).elim

theorem not_member_of_safe (p : List Char)
    (hsafe : (splitKeypath p).all segKeySafe = true) : isProtoMember p = false := by
  cases hv : isProtoMember p
  · rfl
  · rw [member_not_safe p hv] at hsafe
    cases hsafe

theorem not_member_standardise_of_safe (p : List Char)
    (hsafe : (splitKeypath p).all segKeySafe = true) :
    isProtoMember (standardise p) = false := by
  cases hv : isProtoMember (standardise p)
  · rfl
  · rw [member_standardise_not_safe p hv] at hsafe
    cases hsafe

theorem get_fresh_data (d : Val) (p : List Char) (hpe : p.isEmpty = false)
    (hnm : isProtoMember p = false) :
    (interp 1 (.cGet { emptyModel with data := d } p)).retValOf
      = some (getLoop d (splitKeypath p)) := by
  have hcr2 : computedRead { emptyModel with data := d } p = RegRead.absent := by
    rw [computedRead]
    show (if isProtoMember p then RegRead.inherited else RegRead.absent) = RegRead.absent
    rw [hnm]
    rfl
  rw [show (1 : Nat) = 0 + 1 from rfl]
  conv_lhs => rw [interp]
  rw [hpe, show ({ emptyModel with data := d } : Model).referToCache = false from rfl, hcr2]
  show some (pureGet { emptyModel with data := d } p) = _
  rw [pureGet, hpe]
  rfl

theorem pureGet_empty_undef (p : List Char)
    (hsafe : (splitKeypath p).all segKeySafe = true) :
    pureGet { emptyModel with referToCache := true } p = .undef := by
  rw [pureGet]
  by_cases hp : p.isEmpty
  · rw [if_pos hp]
  · rw [if_neg hp]
    cases hsk : splitKeypath p with
    | nil => exact absurd hsk (splitKeypath_ne_nil p)
    | cons k rest =>
      rw [hsk, List.all_cons, Bool.and_eq_true] at hsafe
      have hgp : getProp (Val.vobj []) k = .undef := getProp_fresh _ k hsafe.1 (Or.inl rfl)
      show getLoop (Val.vobj []) (k :: rest) = .undef
      rw [getLoop_structured (Val.vobj []) (by rfl) k rest, hgp]
      simp [getLoop_undef]

/-- C8 (amended): round-trip with auto-created branches: for every
non-empty keypath string p none of whose keys (nor whose canonical form
or ancestor keypaths) collides with an inherited member name of a plain
object, and every primitive value v, setting p to v on a freshly
constructed empty model succeeds (creating all intermediate branches),
returns self with no events, and a subsequent get of p returns exactly
v.  Keypaths through the inherited members are excluded because the
proto accessor swallows the write, as the counterexample shows. -/
theorem claim_C8 (p : List Char) (v : Val) (fuel : Nat)
    (hp : p ≠ []) ( _hv : v.isPrimitive = true)
    (hsafe : (splitKeypath p).all segKeySafe = true)
    (hanc : ∀ a ∈ ancestorsList (standardise p), isProtoMember a = false) :
    ∃ d : Val,
      interp (fuel + (ancestorsList (standardise p)).length + 4)
          (.cSet emptyModel p v false false)
        = .ok { emptyModel with data := d } [] .rSelf
      ∧ (interp 1 (.cGet { emptyModel with data := d } p)).retValOf = some v := by
  obtain ⟨d, hw, hds, hg⟩ :=
    setWalk_fresh (splitKeypath p) v (.vobj []) (Or.inl rfl) (splitKeypath_ne_nil p) hsafe
  have hpe : p.isEmpty = false := isEmpty_false_of_ne_nil hp
  have hnm : isProtoMember p = false := not_member_of_safe p hsafe
  have hnk : isProtoMember (standardise p) = false := not_member_standardise_of_safe p hsafe
  have hcr : computedRead emptyModel p = .absent := by
    rw [show computedRead emptyModel p
        = (if isProtoMember p then RegRead.inherited else RegRead.absent) from rfl, hnm]
    rfl
  refine ⟨d, ?_, ?_⟩
  · rw [show fuel + (ancestorsList (standardise p)).length + 4
        = ((fuel + (ancestorsList (standardise p)).length + 2) + 1) + 1 from rfl]
    conv_lhs => rw [interp]
    simp only [hcr]
    rw [get_cached _ _ p rfl]
    simp only [Res.seq, addEv_nil, RetV.asVal, pureGet_empty_undef p hsafe]
    rw [show emptyModel.data = Val.vobj [] from rfl, hw]
    cases hEq : isEqual Val.undef v
    · simp only [hEq, Bool.not_false, Bool.not_true, Bool.false_or, Bool.true_and,
        if_true, Bool.or_false]
      rw [show joinDots (List.map Seg.chars (splitKeypath p)) = standardise p from rfl]
      rw [show fuel + (ancestorsList (standardise p)).length + 3
          = (fuel + 1) + (ancestorsList (standardise p)).length + 2 from by omega]
      rw [notify_empty (standardise p) v false (fuel + 1) _ rfl hnk hanc]
      simp only [Res.seq, addEv_nil]
      rfl
    · simp only [hEq]
      simp only [Bool.not_true, Bool.false_or, Bool.and_false, Bool.false_eq_true, if_false]
      rfl
  · rw [get_fresh_data d p hpe hnm, hg]

/-- C8 (counterexample): the round-trip fails at the proto accessor:
setting the keypath proto to the number 5 on a fresh model completes
without error, but the write is swallowed by the inherited accessor, so
the subsequent get returns the prototype object reference rather than
the number 5. -/
theorem claim_C8_counterexample :
    (interp 30 (.cSet emptyModel "__proto__".data (.num 5) false false)).errOf = none
    ∧ (interp 1 (.cGet
        (interp 30 (.cSet emptyModel "__proto__".data (.num 5) false false)).modelOf
        "__proto__".data)).retValOf = some (Val.protoVal "__proto__".data)
    ∧ Val.protoVal "__proto__".data ≠ Val.num 5 := by
  refine ⟨rfl, rfl, ?_⟩
  intro h
  cases h

/-- C9 (amended): when the registry read at the keypath yields no
inherited member and does not route through an uncached computed setter
(the cache-referring flag is set, or nothing is registered there, or the
computed is cached or overridden), get is total: it returns the guarded
walk value, which recovers the unguarded walk by turning its TypeError
(and any undefined intermediate) into undefined.  When a setter is routed
through its exceptions propagate, and reading a name inherited from the
plain-object prototype on a fresh model raises a TypeError outside the
guard, as the third conjunct records for the name toString. -/
theorem claim_C9 (fuel : Nat) (m : Model) (p : List Char)
    (h : m.referToCache = true ∨
      (match computedRead m p with
        | .own c => c.cache = true ∨ c.override = true
        | .inherited => False
        | .absent => True)) :
    (interp (fuel + 1) (.cGet m p) = .ok m [] (.rVal (pureGet m p))
    ∧ pureGet m p =
      (if p.isEmpty then Val.undef
       else match getLoopExc m.data (splitKeypath p) with
         | .error _ => Val.undef
         | .ok v => v))
    ∧ (interp 1 (.cGet emptyModel "toString".data)).errOf = some JsErr.typeError := by
  refine ⟨⟨?_, ?_⟩, rfl⟩
  · by_cases hrt : m.referToCache = true
    · exact get_cached fuel m p hrt
    · conv_lhs => rw [interp]
      by_cases hp : p.isEmpty
      · simp [hp, pureGet]
      · simp only [hp, Bool.false_eq_true, if_false]
        rw [show m.referToCache = false from by revert hrt; cases m.referToCache <;> simp]
        simp only [Bool.false_eq_true, if_false]
        rcases h with h | h
        · exact absurd h hrt
        · cases hcr : computedRead m p with
          | absent => rfl
          | inherited =>
            rw [hcr] at h
            exact False.elim h
          | own c =>
            rw [hcr] at h
            have hcc : (!c.cache && !c.override) = false := by
              rcases h with h | h <;> simp [h]
            simp [hcc]
  · rw [pureGet]
    by_cases hp : p.isEmpty
    · simp [hp]
    · simp only [hp, Bool.false_eq_true, if_false]
      exact getLoop_recover (splitKeypath p) m.data

/-- C9 (counterexample): get is not total at the public interface: after
computing a.b (uncached, constant derivation) on the empty model and then
overwriting a with the string hello, get of a.b propagates the TypeError
raised inside the recomputation setter, even though the segment walk of
a.b itself would merely hit a non-container leaf and yield undefined. -/
theorem claim_C9_counterexample :
    (interp 100 (.cGet mC9b "a.b".data)).errOf = some JsErr.typeError
    ∧ getLoop mC9b.data (splitKeypath "a.b".data) = .undef := ⟨rfl, rfl⟩

/-- C9 witness: the amended statement applied on the empty model at a.b:
get returns undefined without raising. -/
theorem claim_C9_witness :
    (interp 1 (.cGet emptyModel "a.b".data)
      = .ok emptyModel [] (.rVal (pureGet emptyModel "a.b".data))
    ∧ pureGet emptyModel "a.b".data =
      (if ("a.b".data).isEmpty then Val.undef
       else match getLoopExc emptyModel.data (splitKeypath "a.b".data) with
         | .error _ => Val.undef
         | .ok v => v))
    ∧ (interp 1 (.cGet emptyModel "toString".data)).errOf = some JsErr.typeError :=
  claim_C9 0 emptyModel "a.b".data (Or.inr trivial)



/-- C2 (counterexample): compute with cache requested true and an empty
trigger list does not fail: on the empty model the call completes with no
error, so no configuration error is raised. -/
theorem claim_C2_counterexample :
    (interp 20 (.cCompute emptyModel "foo".data uncachedTrueOpts)).errOf = none
    ∧ (none : Option JsErr) ≠ some JsErr.uncachable := by
  refine ⟨rfl, ?_⟩
  intro h
  cases h

/-- C2 (amended): requesting cache true with zero triggers never raises
the uncachable configuration error: the cache defaulting forces the flag
to false whenever the resolved trigger list is empty, so a registration
with no triggers cannot reach the uncachable guard with the flag set (in
the source the guard can only fire when the derivation function itself
empties the shared triggers array during the initial evaluation), and
the concrete call completes with the computed value registered uncached
and the derived value returned. -/
theorem claim_C2 :
    (∀ opts : ComputeOptions, computeCacheFlag opts [] = false)
    ∧ (interp 20 (.cCompute emptyModel "foo".data uncachedTrueOpts)).errOf = none
    ∧ ((lookupComputed (interp 20 (.cCompute emptyModel "foo".data uncachedTrueOpts)).modelOf
          "foo".data).map ComputedRec.cache) = some false
    ∧ (interp 20 (.cCompute emptyModel "foo".data uncachedTrueOpts)).retValOf
        = some (.num 42) := by
  refine ⟨?_, rfl, rfl, rfl⟩
  intro opts
  rfl

theorem alistGet_mem {β : Type} (l : List (List Char × β)) (k : List Char) (v : β)
    (h : alistGet l k = some v) : (k, v) ∈ l := by
  induction l with
  | nil => cases h
  | cons kv rest ih =>
    obtain ⟨k2, w⟩ := kv
    rw [alistGet] at h
    by_cases hk : k2 = k
    · rw [if_pos hk] at h
      injection h with h
      subst hk
      subst h
      exact List.mem_cons_self _ _
    · rw [if_neg hk] at h
      exact List.mem_cons_of_mem _ (ih h)

theorem alistErase_get_of_nodup {β : Type} (l : List (List Char × β)) (k : List Char)
    (hnd : (l.map Prod.fst).Nodup) : alistGet (alistErase l k) k = none := by
  induction l with
  | nil => rfl
  | cons kv rest ih =>
    obtain ⟨k2, w⟩ := kv
    rw [List.map_cons, List.nodup_cons] at hnd
    rw [alistErase]
    by_cases hk : k2 = k
    · rw [if_pos hk]
      subst hk
      cases hg : alistGet rest k2 with
      | none => rfl
      | some v => exact absurd (List.mem_map_of_mem Prod.fst (alistGet_mem rest k2 v hg)) hnd.1
    · rw [if_neg hk, alistGet, if_neg hk]
      exact ih hnd.2

theorem removeGroupRecs_clean (obs : List (List Char × List ObserverRec))
    (gids : List Nat) (kp : List Char) (recs : List ObserverRec) (r : ObserverRec)
    (hb : alistGet (removeGroupRecs obs gids) kp = some recs) (hr : r ∈ recs) :
    gids.contains r.groupId = false := by
  have hmem := alistGet_mem _ _ _ hb
  rw [removeGroupRecs] at hmem
  rcases List.mem_filter.mp hmem with ⟨hmem2, _⟩
  rcases List.mem_map.mp hmem2 with ⟨b, _, heq⟩
  have hrec : recs = b.2.filter (fun x => !gids.contains x.groupId) := by
    have := congrArg Prod.snd heq
    simpa using this.symm
  rw [hrec] at hr
  have := (List.mem_filter.mp hr).2
  simpa using this

/-- C10: replacing a computed value is not atomic on validation failure:
calling compute for an id that already has a computed value first removes
the existing one (its registration deleted and all records of its
observer groups dropped from the registry) and only then validates; if
the new options name the id as its own trigger, the self-trigger error
propagates with the old computed value already gone and none registered
in its place. -/
theorem claim_C10 (fuel : Nat) (m : Model) (id : List Char) (opts : ComputeOptions)
    (c : ComputedRec)
    (hex : lookupComputed m id = some c)
    (hnd : (m.computed.map Prod.fst).Nodup)
    (hself : (resolveTriggers opts).contains id = true) :
    interp (fuel + 1) (.cCompute m id opts) = .exn (removeComputed m id) [] .selfTrigger
    ∧ lookupComputed (removeComputed m id) id = none
    ∧ (∀ (kp : List Char) (recs : List ObserverRec) (r : ObserverRec),
        bucketGet (removeComputed m id) kp = some recs → r ∈ recs →
        c.groupIds.contains r.groupId = false) := by
  refine ⟨?_, ?_, ?_⟩
  · have hcr : computedRead m id = RegRead.own c := by
      rw [lookupComputed] at hex
      rw [computedRead, hex]
    conv_lhs => rw [interp]
    simp only [hcr, hex, hself]
    simp
  · rw [removeComputed, hex]
    simp only [lookupComputed]
    exact alistErase_get_of_nodup m.computed id hnd
  · intro kp recs r hb hr
    rw [removeComputed, hex] at hb
    exact removeGroupRecs_clean m.observers c.groupIds kp recs r hb hr

/-- C10 witness: on a model carrying the cached computed value sum with
two trigger groups, recomputing sum with itself as trigger raises the
self-trigger error, the old registration is gone and no observer record
of the old groups survives. -/
theorem claim_C10_witness :
    interp 5 (.cCompute mC10 "sum".data selfOpts)
      = .exn (removeComputed mC10 "sum".data) [] .selfTrigger
    ∧ lookupComputed (removeComputed mC10 "sum".data) "sum".data = none := by
  have h := claim_C10 4 mC10 "sum".data selfOpts sumRecW rfl (by simp [mC10]) (by decide)
  exact ⟨h.1, h.2.1⟩



/-- C4: downstream and upstream propagation with change filtering: an
observer of foo.bar fires with baz when foo is set to an object carrying
bar baz from scratch; it does not fire when foo is replaced by an object
whose bar is unchanged; and an observer of foo fires when foo.bar is set
to a different value. -/
theorem claim_C4 :
    (interp 60 (.cSet mObsFooBar "foo".data
        (.vobj [("bar".data, .str "baz".data)]) false false)).eventsOf
      = [(0, .str "baz".data, .undef)]
    ∧ (interp 60 (.cSet mObsFooBarFull "foo".data
        (.vobj [("c".data, .num 3), ("d".data, .num 4), ("bar".data, .str "baz".data)])
        false false)).eventsOf
      = []
    ∧ (interp 60 (.cSet mObsFooFull "foo.bar".data (.str "boo".data) false false)).eventsOf
      = [(0,
          .vobj [("a".data, .num 1), ("b".data, .num 2), ("bar".data, .str "boo".data)],
          .vobj [("a".data, .num 1), ("b".data, .num 2), ("bar".data, .str "boo".data)])] :=
  ⟨rfl, rfl, rfl⟩

/-- C5: an exact observer fires once per real value change: setting foo
to bar fires the callback once, setting it to bar again fires nothing;
and the change-detection equality compares primitives by value, equates
null only with null, and treats any comparison involving a non-null
structured value as changed. -/
theorem claim_C5 :
    ((interp 60 (.cSet mObsFoo "foo".data (.str "bar".data) false false)).eventsOf
        = [(0, .str "bar".data, .undef)]
      ∧ (interp 60 (.cSet mObsFooSet "foo".data (.str "bar".data) false false)).eventsOf = [])
    ∧ isEqual .null .null = true
    ∧ (∀ v : Val, isEqual .null v = true → v = .null)
    ∧ (∀ v : Val, isEqual v .null = true → v = .null)
    ∧ (∀ a b : Val, (a.isStructured || b.isStructured) = true → isEqual a b = false)
    ∧ (∀ s t : List Char, isEqual (.str s) (.str t) = (s == t))
    ∧ (∀ x y : Int, isEqual (.num x) (.num y) = (x == y))
    ∧ (∀ x y : Bool, isEqual (.bool x) (.bool y) = (x == y)) := by
  refine ⟨⟨rfl, rfl⟩, rfl, ?_, ?_, ?_, ?_, ?_, ?_⟩
  · intro v h
    cases v <;> first | rfl | cases h
  · intro v h
    cases v <;> first | rfl | cases h | simp [isEqual, Val.typeofObject] at h
  · intro a b h
    cases a <;> cases b <;>
      first | rfl | (cases h <;> simp [isEqual, Val.typeofObject])
  · intro s t
    rfl
  · intro x y
    rfl
  · intro x y
    rfl

/-- C5 witness: the structured-operand conjunct applied at a concrete
input: comparing an object with a number counts as changed. -/
theorem claim_C5_witness :
    ((Val.vobj []).isStructured || (Val.num 1).isStructured) = true
    ∧ isEqual (.vobj []) (.num 1) = false :=
  ⟨rfl, claim_C5.2.2.2.2.1 (.vobj []) (.num 1) rfl⟩

/-- C6: batch de-duplication: the batched write of foo and bar with one
observer on each fires each callback exactly once with its respective
new and previous values, in queue (FIFO) order, identically for both
registration orders, leaves the queue empty and the queueing flag clear,
and both written values are in place when the callbacks run. -/
theorem claim_C6 :
    (interp 200 (.cSetMulti mBatchA batchPairs false)).eventsOf
      = [(0, .str "baz".data, .str "a".data), (1, .str "foo".data, .str "b".data)]
    ∧ (interp 200 (.cSetMulti mBatchB batchPairs false)).eventsOf
      = [(0, .str "baz".data, .str "a".data), (1, .str "foo".data, .str "b".data)]
    ∧ (interp 200 (.cSetMulti mBatchA batchPairs false)).modelOf.queue = []
    ∧ (interp 200 (.cSetMulti mBatchA batchPairs false)).modelOf.queueing = false
    ∧ pureGet (interp 200 (.cSetMulti mBatchA batchPairs false)).modelOf "foo".data
        = .str "baz".data
    ∧ pureGet (interp 200 (.cSetMulti mBatchA batchPairs false)).modelOf "bar".data
        = .str "foo".data :=
  ⟨rfl, rfl, rfl, rfl, rfl, rfl⟩



/-- C8 witness: the round-trip theorem applied at the concrete keypath
foo.bar[1] with the numeric value 7. -/
theorem claim_C8_witness :
    ("foo.bar[1]".data ≠ []) ∧ (Val.num 7).isPrimitive = true
    ∧ ∃ d : Val,
      interp (0 + (ancestorsList (standardise "foo.bar[1]".data)).length + 4)
          (.cSet emptyModel "foo.bar[1]".data (.num 7) false false)
        = .ok { emptyModel with data := d } [] .rSelf
      ∧ (interp 1 (.cGet { emptyModel with data := d } "foo.bar[1]".data)).retValOf
          = some (.num 7) :=
  ⟨by decide, rfl, claim_C8 "foo.bar[1]".data (.num 7) 0 (by decide) rfl (by decide)
    (by decide)⟩


end Statesman
